import Mathlib

/-!
Verification development for the Simplicity (FCU blockchain) repository.

The Python sources are shallowly embedded: every `Dict` becomes an
association list (`List (key × value)`) with first-match lookup and
in-place update, Python `float` amounts and timestamps become `ℚ`,
Python `int` becomes `Nat`/`ℤ` as appropriate, and the external
`hashlib.sha256` digest together with the seeded `random.choice`
draw are abstracted as explicit function parameters (they are
deterministic functions in the source as well).  Wall-clock reads
(`time.time()`) become an explicit `now` argument.
-/

namespace Simplicity

/-- First-match association-list lookup, mirroring Python `dict` access. -/
def lookupA {β : Type} : List (String × β) → String → Option β
  | [], _ => none
  | (k1, v) :: r, k => if k1 = k then some v else lookupA r k

/-- Association-list update, mirroring Python `dict` assignment: an existing
key keeps its position and gets the new value, a new key is appended. -/
def setA {β : Type} : List (String × β) → String → β → List (String × β)
  | [], k, v => [(k, v)]
  | (k1, v1) :: r, k, v => if k1 = k then (k, v) :: r else (k1, v1) :: setA r k v

theorem lookupA_setA {β : Type} (m : List (String × β)) (k k2 : String) (v : β) :
    lookupA (setA m k v) k2 = if k = k2 then some v else lookupA m k2 := by
  induction m with
  | nil => simp [setA, lookupA]
  | cons hd tl ih =>
    obtain ⟨k1, v1⟩ := hd
    by_cases h1 : k1 = k
    · subst h1
      by_cases h2 : k1 = k2 <;> simp [setA, lookupA, h2]
    · by_cases h2 : k1 = k2
      · subst h2
        have : ¬ k = k1 := fun h => h1 h.symm
        simp [setA, lookupA, h1, this]
      · simp [setA, lookupA, h1, h2, ih]

theorem setA_absent {β : Type} (m : List (String × β)) (k : String) (v : β)
    (h : lookupA m k = none) : setA m k v = m ++ [(k, v)] := by
  induction m with
  | nil => simp [setA]
  | cons hd tl ih =>
    obtain ⟨k1, v1⟩ := hd
    by_cases h1 : k1 = k
    · simp [lookupA, h1] at h
    · simp [lookupA, h1] at h
      simp [setA, h1, ih h]

theorem lookupA_append {β : Type} (m1 m2 : List (String × β)) (k : String) :
    lookupA (m1 ++ m2) k = ((lookupA m1 k).orElse (fun _ => lookupA m2 k)) := by
  induction m1 with
  | nil => simp [lookupA]
  | cons hd tl ih =>
    obtain ⟨k1, v1⟩ := hd
    by_cases h1 : k1 = k <;> simp [lookupA, h1, ih]

/-- Python `int(q)` on a rational: truncation toward zero. -/
def pyInt (q : ℚ) : ℤ := if q < 0 then ⌈q⌉ else ⌊q⌋

/-- Transaction types in the FCU blockchain (`core.TransactionType`). -/
inductive TransactionType where
  | transfer
  | stake_deposit
  | stake_withdraw
  | storage_pledge
  | storage_revoke
  | governance_vote
deriving DecidableEq

/-- The keys of the transaction `data` dict that the core logic reads
(`capacity_gb` and `proof_hash` in `Blockchain.process_transactions`);
other entries of the dict are never consulted. -/
structure TxData where
  capacity_gb : Option ℚ
  proof_hash : Option String
deriving DecidableEq

/-- A transaction (`core.Transaction`). -/
structure Transaction where
  tx_id : String
  timestamp : ℚ
  sender : String
  receiver : String
  amount : ℚ
  tx_type : TransactionType
  nonce : Nat
  signature : Option String
  data : TxData
deriving DecidableEq

/-- A storage pledge (`core.StoragePledge`). -/
structure StoragePledge where
  pledger : String
  capacity_gb : ℚ
  timestamp : ℚ
  proof_hash : Option String
  challenge_response : Option String
  is_active : Bool
deriving DecidableEq

/-- A proof-of-stake record (`core.PoSStake`). -/
structure PoSStake where
  validator : String
  amount : ℚ
  lock_time : Nat
  timestamp : ℚ
  delegated_from : Option String
  is_active : Bool
deriving DecidableEq

/-- A block (`core.Block`).  The `hash` and `merkle_root` fields are the
stored values computed at construction time; `mkBlock` below performs the
constructor computation. -/
structure Block where
  index : Nat
  previous_hash : String
  timestamp : ℚ
  transactions : List Transaction
  miner : String
  validators : List String
  poc_difficulty : Nat
  pow_lottery_winner : Option String
  nonce : Nat
  merkle_root : String
  state_root : Option String
  hash : String
deriving DecidableEq

/-- The blockchain (`core.Blockchain`). -/
structure Blockchain where
  chain_id : String
  chain : List Block
  state : List (String × ℚ)
  storage_pledges : List (String × StoragePledge)
  pos_stakes : List (String × List PoSStake)
  pending_transactions : List Transaction
deriving DecidableEq

/-- Account balance (`Blockchain.get_balance`): dict lookup with default 0. -/
def Blockchain.get_balance (bc : Blockchain) (address : String) : ℚ :=
  (lookupA bc.state address).getD 0

/-- Admission of a transaction to the pending pool
(`Blockchain.add_transaction`): checks the sender balance against the
amount, returns whether it was accepted. -/
def Blockchain.add_transaction (bc : Blockchain) (tx : Transaction) :
    Blockchain × Bool :=
  if bc.get_balance tx.sender ≥ tx.amount then
    ({ bc with pending_transactions := bc.pending_transactions ++ [tx] }, true)
  else (bc, false)

/-- One step of `Blockchain.process_transactions`: the body of its loop
applied to a single transaction.  `now` models `time.time()` used by the
dataclass default factories of the records it constructs. -/
def Blockchain.applyTx (now : ℚ) (bc : Blockchain) (tx : Transaction) : Blockchain :=
  match tx.tx_type with
  | .transfer =>
      let sender_bal := (lookupA bc.state tx.sender).getD 0
      if sender_bal ≥ tx.amount then
        let st1 := setA bc.state tx.sender (sender_bal - tx.amount)
        let st2 := setA st1 tx.receiver ((lookupA st1 tx.receiver).getD 0 + tx.amount)
        { bc with state := st2 }
      else bc
  | .stake_deposit =>
      let stake : PoSStake := ⟨tx.sender, tx.amount, 0, now, none, true⟩
      let stakes :=
        match lookupA bc.pos_stakes tx.sender with
        | some l => setA bc.pos_stakes tx.sender (l ++ [stake])
        | none => setA bc.pos_stakes tx.sender [stake]
      let st := setA bc.state tx.sender ((lookupA bc.state tx.sender).getD 0 - tx.amount)
      { bc with pos_stakes := stakes, state := st }
  | .storage_pledge =>
      let pledge : StoragePledge :=
        ⟨tx.sender, (tx.data.capacity_gb).getD 32, now, tx.data.proof_hash, none, true⟩
      { bc with storage_pledges := setA bc.storage_pledges tx.sender pledge }
  | _ => bc

/-- Apply a list of transactions to the state
(`Blockchain.process_transactions`). -/
def Blockchain.process_transactions (now : ℚ) (bc : Blockchain)
    (txs : List Transaction) : Blockchain :=
  txs.foldl (Blockchain.applyTx now) bc

/-- Ledger state right after genesis: the genesis transaction credits the
treasury with 1,000,000 tokens (`Blockchain._create_genesis_block` sets
`state[receiver] = amount`).  The `chain` field is not read by any of the
state-application operations and is left empty here; block construction is
modelled separately (it is parameterized by the digest function). -/
def bcA : Blockchain := ⟨"FCU_MAINNET", [], [("FCU_TREASURY", 1000000)], [], [], []⟩

/-- A stake deposit of the whole treasury balance. -/
def txStakeAll : Transaction :=
  ⟨"TX_STAKE", 0, "FCU_TREASURY", "FCU_TREASURY", 1000000, .stake_deposit, 0, none, ⟨none, none⟩⟩

/-- A transfer with a negative amount from an empty account. -/
def txNegTransfer : Transaction :=
  ⟨"TX_NEG", 0, "NOBODY", "VICTIM", -5, .transfer, 0, none, ⟨none, none⟩⟩

/-- A 500,000 transfer from the treasury to Farmer_A. -/
def tx500 : Transaction :=
  ⟨"TX_500K", 0, "FCU_TREASURY", "Farmer_A", 500000, .transfer, 0, none, ⟨none, none⟩⟩

/-- A 600,000 transfer attempt from Farmer_A. -/
def tx600 : Transaction :=
  ⟨"TX_600K", 0, "Farmer_A", "FCU_TREASURY", 600000, .transfer, 0, none, ⟨none, none⟩⟩

/-- Ledger state after the 500,000 transfer from the treasury to Farmer_A. -/
def bc1 : Blockchain := bcA.process_transactions 0 [tx500]

/-- C1 counterexample: the claim quantifies over all admitted transaction
sequences, but (a) two stake deposits of the full treasury balance each
pass the admission check (admission does not debit), and processing them
drives the treasury balance to -1,000,000; (b) a transfer with a negative
amount also passes admission (0 ≥ -5) and drives the receiver negative. -/
theorem C1_counterexample :
    ((bcA.add_transaction txStakeAll).2 = true ∧
      (((bcA.add_transaction txStakeAll).1).add_transaction txStakeAll).2 = true ∧
      (bcA.process_transactions 0 [txStakeAll, txStakeAll]).get_balance "FCU_TREASURY" < 0) ∧
    ((bcA.add_transaction txNegTransfer).2 = true ∧
      (bcA.process_transactions 0 [txNegTransfer]).get_balance "VICTIM" < 0) := by
  refine ⟨⟨?_, ?_, ?_⟩, ?_, ?_⟩ <;>
    norm_num +decide [bcA, txStakeAll, txNegTransfer, Blockchain.add_transaction,
      Blockchain.get_balance, Blockchain.process_transactions, Blockchain.applyTx,
      lookupA, setA]

theorem applyTx_transfer_nonneg (now : ℚ) (bc : Blockchain) (tx : Transaction)
    (hty : tx.tx_type = .transfer) (hamt : 0 ≤ tx.amount)
    (h0 : ∀ a, 0 ≤ bc.get_balance a) :
    ∀ a, 0 ≤ (bc.applyTx now tx).get_balance a := by
  intro a
  simp only [Blockchain.get_balance] at h0 ⊢
  simp only [Blockchain.applyTx, hty]
  by_cases hge : (lookupA bc.state tx.sender).getD 0 ≥ tx.amount
  · rw [if_pos hge]
    have hst1 : ∀ b, 0 ≤ (lookupA (setA bc.state tx.sender
        ((lookupA bc.state tx.sender).getD 0 - tx.amount)) b).getD 0 := by
      intro b
      rw [lookupA_setA]
      by_cases h : tx.sender = b
      · rw [if_pos h]
        simp only [Option.getD_some]
        linarith
      · rw [if_neg h]
        exact h0 b
    show 0 ≤ (lookupA (setA _ tx.receiver _) a).getD 0
    rw [lookupA_setA]
    by_cases h2 : tx.receiver = a
    · rw [if_pos h2]
      simp only [Option.getD_some]
      have := hst1 tx.receiver
      linarith
    · rw [if_neg h2]
      exact hst1 a
  · rw [if_neg hge]
    exact h0 a

/-- C1 amended: for sequences of transfer transactions with nonnegative
amounts (the data-model invariant), `process_transactions` preserves
nonnegativity of every account balance — the apply-time recheck skips any
underfunded transfer, so no balance ever goes negative. -/
theorem C1_amended (now : ℚ) (bc : Blockchain) (txs : List Transaction)
    (hty : ∀ tx ∈ txs, tx.tx_type = .transfer)
    (hamt : ∀ tx ∈ txs, 0 ≤ tx.amount)
    (h0 : ∀ a, 0 ≤ bc.get_balance a) :
    ∀ a, 0 ≤ (bc.process_transactions now txs).get_balance a := by
  induction txs generalizing bc with
  | nil => simpa [Blockchain.process_transactions] using h0
  | cons t ts ih =>
    simp only [Blockchain.process_transactions, List.foldl_cons] at *
    have h1 : ∀ a, 0 ≤ (bc.applyTx now t).get_balance a :=
      applyTx_transfer_nonneg now bc t (hty t (List.mem_cons_self t ts))
        (hamt t (List.mem_cons_self t ts)) h0
    exact ih (bc.applyTx now t) (fun tx h => hty tx (List.mem_cons_of_mem t h))
      (fun tx h => hamt tx (List.mem_cons_of_mem t h)) h1

theorem C1_witness :
    0 ≤ (bcA.process_transactions 0 [tx500]).get_balance "Farmer_A" :=
  C1_amended 0 bcA [tx500]
    (by intro tx h; simp only [List.mem_singleton] at h; subst h; rfl)
    (by intro tx h; simp only [List.mem_singleton] at h; subst h; norm_num [tx500])
    (by
      intro a
      simp only [bcA, Blockchain.get_balance, lookupA]
      split <;> simp) "Farmer_A"

/-- C7: a transfer whose sender balance is below its amount is rejected at
admission (`add_transaction` returns false and leaves the ledger unchanged)
and is a no-op at application time (`process_transactions` skips it,
leaving every balance unchanged). -/
theorem C7_insufficient_transfer (now : ℚ) (bc : Blockchain) (tx : Transaction)
    (hty : tx.tx_type = .transfer)
    (hlt : bc.get_balance tx.sender < tx.amount) :
    bc.add_transaction tx = (bc, false) ∧ bc.applyTx now tx = bc := by
  constructor
  · simp [Blockchain.add_transaction, not_le.2 hlt]
  · simp only [Blockchain.applyTx, hty]
    rw [if_neg]
    exact not_le.2 hlt

theorem C7_witness :
    bc1.get_balance "FCU_TREASURY" = 500000 ∧
    bc1.get_balance "Farmer_A" = 500000 ∧
    bc1.get_balance "Farmer_A" < tx600.amount ∧
    bc1.add_transaction tx600 = (bc1, false) ∧
    bc1.applyTx 0 tx600 = bc1 := by
  have hlt : bc1.get_balance tx600.sender < tx600.amount := by
    norm_num +decide [bc1, bcA, tx500, tx600, Blockchain.get_balance,
      Blockchain.process_transactions, Blockchain.applyTx, lookupA, setA]
  refine ⟨?_, ?_, hlt, ?_, ?_⟩
  · norm_num +decide [bc1, bcA, tx500, Blockchain.get_balance,
      Blockchain.process_transactions, Blockchain.applyTx, lookupA, setA]
  · norm_num +decide [bc1, bcA, tx500, Blockchain.get_balance,
      Blockchain.process_transactions, Blockchain.applyTx, lookupA, setA]
  · exact (C7_insufficient_transfer 0 bc1 tx600 rfl hlt).1
  · exact (C7_insufficient_transfer 0 bc1 tx600 rfl hlt).2

/-- Target block time (`PoCDifficulty.TARGET_BLOCK_TIME = 22.5`). -/
def TARGET_BLOCK_TIME : ℚ := 45 / 2

/-- Difficulty adjustment (`PoCDifficulty.calculate_new_difficulty`).  The
`network_capacity_gb` argument is accepted but never read, as in the
source. -/
def calculate_new_difficulty (current_difficulty : Nat) (actual_block_times : List ℚ)
    (network_capacity_gb : ℚ) : Nat :=
  if actual_block_times.length < 2 then current_difficulty
  else
    let avg_time := actual_block_times.sum / (actual_block_times.length : ℚ)
    if avg_time < TARGET_BLOCK_TIME * (4 / 5) then min (current_difficulty + 1) 32
    else if avg_time > TARGET_BLOCK_TIME * (6 / 5) then max (current_difficulty - 1) 1
    else current_difficulty

/-- Per-participant lottery record (the dict stored by
`PoWLottery.register_participant`). -/
structure LotteryData where
  storage_gb : ℚ
  entries : ℤ
  wins : ℤ
  last_entry_block : Nat
deriving DecidableEq

/-- The PoW lottery (`consensus.PoWLottery`). -/
structure PoWLottery where
  block_time : Nat
  lottery_difficulty : Nat
  participants : List (String × LotteryData)
  winners : List String
deriving DecidableEq

/-- Register a storage donator (`PoWLottery.register_participant`): an
unconditional dict assignment of a fresh record. -/
def PoWLottery.register_participant (lot : PoWLottery) (participant_id : String)
    (storage_gb : ℚ) : PoWLottery :=
  { lot with participants := setA lot.participants participant_id ⟨storage_gb, 0, 0, 0⟩ }

/-- Ticket count for a capacity: `max(1, int(capacity / 32.0))`. -/
def ticketCount (capacity : ℚ) : ℤ := max 1 (pyInt (capacity / 32))

/-- Issue lottery tickets (`PoWLottery.add_lottery_ticket`); returns the
updated lottery and the number of tickets issued (0 for unregistered ids). -/
def PoWLottery.add_lottery_ticket (lot : PoWLottery) (participant_id : String)
    (block_height : Nat) : PoWLottery × ℤ :=
  match lookupA lot.participants participant_id with
  | none => (lot, 0)
  | some d =>
      let tickets := ticketCount d.storage_gb
      let d2 : LotteryData := ⟨d.storage_gb, d.entries + tickets, d.wins, block_height⟩
      ({ lot with participants := setA lot.participants participant_id d2 }, tickets)

/-- C3 counterexample: applying a `storage_pledge` transaction with
`capacity_gb = 10` records the capacity as 10 GB, not clamped to 32 GB —
the transaction-application path (`process_transactions`) performs no
minimum-capacity clamping. -/
theorem C3_counterexample :
    ((lookupA (bcA.process_transactions 0
        [⟨"TX_PLEDGE", 0, "Farmer_Small", "", 0, .storage_pledge, 0, none, ⟨some 10, none⟩⟩]
      ).storage_pledges "Farmer_Small").map StoragePledge.capacity_gb) = some 10 ∧
    (10 : ℚ) ≠ 32 := by
  constructor
  · norm_num +decide [bcA, Blockchain.process_transactions, Blockchain.applyTx, lookupA, setA]
  · norm_num

/-- C3 amended: a storage_pledge transaction always upserts a pledge (never
rejected) recording the capacity exactly as given in the transaction data
(default 32 GB when absent, with no clamping); lottery tickets are
`max(1, floor(capacity / 32))`, so a 512 GB participant receives 16 tickets
and a 10 GB participant receives 1 ticket via the one-ticket minimum, not
via any capacity clamp. -/
theorem C3_amended (now : ℚ) (bc : Blockchain) (tx : Transaction)
    (lot : PoWLottery) (h : Nat) (hty : tx.tx_type = .storage_pledge) :
    lookupA (bc.applyTx now tx).storage_pledges tx.sender =
      some ⟨tx.sender, (tx.data.capacity_gb).getD 32, now, tx.data.proof_hash, none, true⟩ ∧
    ((lot.register_participant "Miner512" 512).add_lottery_ticket "Miner512" h).2 = 16 ∧
    ((lot.register_participant "Miner10" 10).add_lottery_ticket "Miner10" h).2 = 1 := by
  refine ⟨?_, ?_, ?_⟩
  · simp only [Blockchain.applyTx, hty]
    rw [lookupA_setA, if_pos rfl]
  · simp only [PoWLottery.register_participant, PoWLottery.add_lottery_ticket,
      lookupA_setA, if_pos rfl]
    norm_num [ticketCount, pyInt]
  · simp only [PoWLottery.register_participant, PoWLottery.add_lottery_ticket,
      lookupA_setA, if_pos rfl]
    norm_num [ticketCount, pyInt]

theorem C3_witness :
    lookupA (bcA.applyTx 0
        ⟨"TX_PLEDGE", 0, "Farmer_Small", "", 0, .storage_pledge, 0, none, ⟨some 10, none⟩⟩
      ).storage_pledges "Farmer_Small" =
        some ⟨"Farmer_Small", 10, 0, none, none, true⟩ ∧
    ((PoWLottery.register_participant ⟨22, 4, [], []⟩ "Miner512" 512).add_lottery_ticket
        "Miner512" 3).2 = 16 ∧
    ((PoWLottery.register_participant ⟨22, 4, [], []⟩ "Miner10" 10).add_lottery_ticket
        "Miner10" 3).2 = 1 :=
  C3_amended 0 bcA
    ⟨"TX_PLEDGE", 0, "Farmer_Small", "", 0, .storage_pledge, 0, none, ⟨some 10, none⟩⟩
    ⟨22, 4, [], []⟩ 3 rfl

/-- C10: re-registering an already-registered participant unconditionally
overwrites its record with entries = 0 and wins = 0 — accumulated entries
and win history are erased by the upsert. -/
theorem C10_register_resets (lot : PoWLottery) (participant_id : String) (storage_gb : ℚ) :
    lookupA (lot.register_participant participant_id storage_gb).participants
      participant_id = some ⟨storage_gb, 0, 0, 0⟩ := by
  simp [PoWLottery.register_participant, lookupA_setA]

/-- C6 counterexample: with a single trailing sample equal to
`0.5 × target` (= 45/4), the mean is below `0.8 × target`, yet the code
returns the difficulty unchanged (4, not 5) because it bails out whenever
fewer than two samples are given. -/
theorem C6_counterexample :
    ([(45 / 4 : ℚ)].sum / ([(45 / 4 : ℚ)].length : ℚ) < TARGET_BLOCK_TIME * (4 / 5)) ∧
    calculate_new_difficulty 4 [(45 / 4 : ℚ)] 1000 = 4 ∧
    (4 : Nat) ≠ min (4 + 1) 32 := by
  refine ⟨?_, ?_, ?_⟩
  · norm_num [TARGET_BLOCK_TIME]
  · norm_num [calculate_new_difficulty]
  · norm_num

theorem sum_of_constant (l : List ℚ) (c : ℚ) (h : ∀ t ∈ l, t = c) :
    l.sum = c * l.length := by
  induction l with
  | nil => simp
  | cons x xs ih =>
    have hx : x = c := h x (List.mem_cons_self x xs)
    have ihs := ih (fun t ht => h t (List.mem_cons_of_mem x ht))
    simp only [List.sum_cons, ihs, hx, List.length_cons]
    push_cast
    ring

/-- C6 amended: given at least two trailing samples, the control law is as
claimed: mean below `0.8 × target` gives `min(old + 1, 32)`, mean above
`1.2 × target` gives `max(old - 1, 1)`, otherwise unchanged; in particular
samples all equal to `0.5 × target` give `min(old + 1, 32)` (strict
increase bounded at 32), all equal to `2 × target` give `max(old - 1, 1)`
(strict decrease bounded at 1), and all equal to target leave the
difficulty unchanged.  With fewer than two samples the code returns the
difficulty unchanged regardless of the mean. -/
theorem C6_amended (d : Nat) (times : List ℚ) (cap : ℚ) (h2 : 2 ≤ times.length) :
    (times.sum / (times.length : ℚ) < TARGET_BLOCK_TIME * (4 / 5) →
      calculate_new_difficulty d times cap = min (d + 1) 32) ∧
    (times.sum / (times.length : ℚ) > TARGET_BLOCK_TIME * (6 / 5) →
      calculate_new_difficulty d times cap = max (d - 1) 1) ∧
    (TARGET_BLOCK_TIME * (4 / 5) ≤ times.sum / (times.length : ℚ) →
      times.sum / (times.length : ℚ) ≤ TARGET_BLOCK_TIME * (6 / 5) →
      calculate_new_difficulty d times cap = d) ∧
    ((∀ t ∈ times, t = TARGET_BLOCK_TIME / 2) →
      calculate_new_difficulty d times cap = min (d + 1) 32) ∧
    ((∀ t ∈ times, t = TARGET_BLOCK_TIME * 2) →
      calculate_new_difficulty d times cap = max (d - 1) 1) ∧
    ((∀ t ∈ times, t = TARGET_BLOCK_TIME) →
      calculate_new_difficulty d times cap = d) := by
  have hlen : ¬ times.length < 2 := not_lt.2 h2
  have hlenpos : (0 : ℚ) < (times.length : ℚ) := by
    have : 0 < times.length := by omega
    exact_mod_cast this
  have havg : ∀ c : ℚ, (∀ t ∈ times, t = c) →
      times.sum / (times.length : ℚ) = c := by
    intro c hc
    rw [sum_of_constant times c hc]
    field_simp
  refine ⟨?_, ?_, ?_, ?_, ?_, ?_⟩
  · intro hlo
    simp only [calculate_new_difficulty, if_neg hlen, if_pos hlo]
  · intro hhi
    have hnlo : ¬ (times.sum / (times.length : ℚ) < TARGET_BLOCK_TIME * (4 / 5)) := by
      rw [not_lt]
      calc TARGET_BLOCK_TIME * (4 / 5) ≤ TARGET_BLOCK_TIME * (6 / 5) := by
            norm_num [TARGET_BLOCK_TIME]
        _ ≤ times.sum / (times.length : ℚ) := le_of_lt hhi
    simp only [calculate_new_difficulty, if_neg hlen, if_neg hnlo, if_pos hhi]
  · intro hge hle
    have hnlo : ¬ (times.sum / (times.length : ℚ) < TARGET_BLOCK_TIME * (4 / 5)) :=
      not_lt.2 hge
    have hnhi : ¬ (times.sum / (times.length : ℚ) > TARGET_BLOCK_TIME * (6 / 5)) :=
      not_lt.2 hle
    simp only [calculate_new_difficulty, if_neg hlen, if_neg hnlo, if_neg hnhi]
  · intro hc
    have h := havg (TARGET_BLOCK_TIME / 2) hc
    simp only [calculate_new_difficulty, if_neg hlen, h]
    rw [if_pos (by norm_num [TARGET_BLOCK_TIME])]
  · intro hc
    have h := havg (TARGET_BLOCK_TIME * 2) hc
    simp only [calculate_new_difficulty, if_neg hlen, h]
    rw [if_neg (by norm_num [TARGET_BLOCK_TIME]), if_pos (by norm_num [TARGET_BLOCK_TIME])]
  · intro hc
    have h := havg TARGET_BLOCK_TIME hc
    simp only [calculate_new_difficulty, if_neg hlen, h]
    rw [if_neg (by norm_num [TARGET_BLOCK_TIME]), if_neg (by norm_num [TARGET_BLOCK_TIME])]

theorem C6_witness :
    calculate_new_difficulty 4 [(45 / 4 : ℚ), 45 / 4] 1000 = min (4 + 1) 32 ∧
    calculate_new_difficulty 4 [(45 : ℚ), 45] 1000 = max (4 - 1) 1 ∧
    calculate_new_difficulty 4 [(45 / 2 : ℚ), 45 / 2] 1000 = 4 := by
  refine ⟨?_, ?_, ?_⟩
  · exact (C6_amended 4 [(45 / 4 : ℚ), 45 / 4] 1000 (by norm_num)).2.2.2.1
      (by intro t ht; simp only [List.mem_cons, List.mem_singleton] at ht
          rcases ht with h | h | h <;> first
            | (subst h; norm_num [TARGET_BLOCK_TIME])
            | exact absurd h (by simp))
  · exact (C6_amended 4 [(45 : ℚ), 45] 1000 (by norm_num)).2.2.2.2.1
      (by intro t ht; simp only [List.mem_cons, List.mem_singleton] at ht
          rcases ht with h | h | h <;> first
            | (subst h; norm_num [TARGET_BLOCK_TIME])
            | exact absurd h (by simp))
  · exact (C6_amended 4 [(45 / 2 : ℚ), 45 / 2] 1000 (by norm_num)).2.2.2.2.2
      (by intro t ht; simp only [List.mem_cons, List.mem_singleton] at ht
          rcases ht with h | h | h <;> first
            | (subst h; norm_num [TARGET_BLOCK_TIME])
            | exact absurd h (by simp))

/-- Value of a lowercase/uppercase hex digit, used to model the Python
`int(s, 16)`; non-hex characters (unreachable for sha256 hexdigests) map
to 0 to keep the function total. -/
def hexVal (c : Char) : Nat :=
  if c.isDigit then c.toNat - 48
  else if c ≥ 'a' ∧ c ≤ 'f' then c.toNat - 87
  else if c ≥ 'A' ∧ c ≤ 'F' then c.toNat - 55
  else 0

/-- Parse a hex string to a number (model of `int(s, 16)`). -/
def parseHex (s : String) : Nat :=
  s.foldl (fun acc c => 16 * acc + hexVal c) 0

/-- The lottery seed (`select_winner`): the first 16 hex characters of the
digest of the block hash, read as an integer. -/
def lotterySeed (sha256 : String → String) (block_hash : String) : Nat :=
  parseHex ((sha256 block_hash).take 16)

/-- The weighted pool built by `select_winner`: each participant repeated
`max(1, int(storage_gb / 32))` times, in registration order. -/
def lotteryPool : List (String × ℚ) → List String
  | [] => []
  | (pid, c) :: r => List.replicate (ticketCount c).toNat pid ++ lotteryPool r

/-- Increment the stored win counter of the winner
(the source increments the wins entry of the winner record).  The winner returned by
`random.choice` is always a pool member, hence a participant key; for
other strings this is a no-op where Python would raise `KeyError`. -/
def incWins (ps : List (String × LotteryData)) (w : String) :
    List (String × LotteryData) :=
  ps.map (fun p => if p.1 = w then (p.1, ⟨p.2.storage_gb, p.2.entries, p.2.wins + 1, p.2.last_entry_block⟩) else p)

/-- Select the lottery winner (`PoWLottery.select_winner`).  The digest and
the seeded uniform draw (`random.seed(seed); random.choice(pool)`) are
abstracted as the deterministic function parameters `sha256` and `choice`
(the source generator is deterministic in the seed as well).
`block_height` is accepted but never read, as in the source. -/
def PoWLottery.select_winner (sha256 : String → String)
    (choice : Nat → List String → String) (lot : PoWLottery)
    (block_hash : String) (block_height : Nat) : PoWLottery × Option String :=
  if lot.participants = [] then (lot, none)
  else
    let seed := lotterySeed sha256 block_hash
    let pool := lotteryPool (lot.participants.map (fun p => (p.1, p.2.storage_gb)))
    if pool = [] then (lot, none)
    else
      let winner := choice seed pool
      let ws := if winner ∈ lot.winners then lot.winners else lot.winners ++ [winner]
      ({ lot with winners := ws, participants := incWins lot.participants winner },
        some winner)

theorem incWins_proj (ps : List (String × LotteryData)) (w : String) :
    (incWins ps w).map (fun p => (p.1, p.2.storage_gb)) =
      ps.map (fun p => (p.1, p.2.storage_gb)) := by
  induction ps with
  | nil => simp [incWins]
  | cons x xs ih =>
    simp only [incWins, List.map_cons] at *
    by_cases h : x.1 = w <;> simp [h, ih]

/-- C5: lottery determinism.  Two lotteries agreeing on their participant
ids and pledged capacities (in order) — regardless of entries, wins or
winner history — yield the same winner for the same block hash, at any
block heights; and a repeated call on the same instance (whose state was
mutated by the first call) returns the same winner, because the win-count
update does not change the pool and the seed depends only on the digest of
the block hash. -/
theorem C5_lottery_determinism (sha256 : String → String)
    (choice : Nat → List String → String) (lot1 lot2 : PoWLottery)
    (block_hash : String) (h1 h2 : Nat)
    (hsame : lot1.participants.map (fun p => (p.1, p.2.storage_gb)) =
      lot2.participants.map (fun p => (p.1, p.2.storage_gb))) :
    (lot1.select_winner sha256 choice block_hash h1).2 =
      (lot2.select_winner sha256 choice block_hash h2).2 ∧
    ((lot1.select_winner sha256 choice block_hash h1).1.select_winner sha256 choice
        block_hash h1).2 =
      (lot1.select_winner sha256 choice block_hash h1).2 := by
  have key : ∀ (la lb : PoWLottery) (ha hb : Nat),
      la.participants.map (fun p => (p.1, p.2.storage_gb)) =
        lb.participants.map (fun p => (p.1, p.2.storage_gb)) →
      (la.select_winner sha256 choice block_hash ha).2 =
        (lb.select_winner sha256 choice block_hash hb).2 := by
    intro la lb ha hb hab
    have hempty : la.participants = [] ↔ lb.participants = [] := by
      constructor
      · intro h
        have : lb.participants.map (fun p => (p.1, p.2.storage_gb)) = [] := by
          rw [← hab, h]; simp
        exact List.map_eq_nil_iff.mp this
      · intro h
        have : la.participants.map (fun p => (p.1, p.2.storage_gb)) = [] := by
          rw [hab, h]; simp
        exact List.map_eq_nil_iff.mp this
    by_cases h : la.participants = []
    · simp [PoWLottery.select_winner, h, hempty.mp h]
    · have hb2 : ¬ lb.participants = [] := fun hh => h (hempty.mpr hh)
      simp only [PoWLottery.select_winner, if_neg h, if_neg hb2, hab]
      by_cases hp : lotteryPool (lb.participants.map (fun p => (p.1, p.2.storage_gb))) = []
      · simp [hp]
      · simp [hp]
  refine ⟨key lot1 lot2 h1 h2 hsame, ?_⟩
  have hproj : (lot1.select_winner sha256 choice block_hash h1).1.participants.map
      (fun p => (p.1, p.2.storage_gb)) =
      lot1.participants.map (fun p => (p.1, p.2.storage_gb)) := by
    by_cases h : lot1.participants = []
    · simp [PoWLottery.select_winner, h]
    · simp only [PoWLottery.select_winner, if_neg h]
      by_cases hp : lotteryPool (lot1.participants.map (fun p => (p.1, p.2.storage_gb))) = []
      · simp [hp]
      · simp [hp, incWins_proj]
  exact key _ lot1 h1 h1 hproj

theorem C5_witness :
    ((PoWLottery.select_winner (fun s => s) (fun _ pool => pool.headD "")
        ⟨22, 4, [("Farmer_John", ⟨256, 0, 0, 0⟩)], []⟩ "block_1" 1).2 =
      (PoWLottery.select_winner (fun s => s) (fun _ pool => pool.headD "")
        ⟨22, 4, [("Farmer_John", ⟨256, 7, 3, 5⟩)], ["Farmer_John"]⟩ "block_1" 2).2) ∧
    ((PoWLottery.select_winner (fun s => s) (fun _ pool => pool.headD "")
        (PoWLottery.select_winner (fun s => s) (fun _ pool => pool.headD "")
          ⟨22, 4, [("Farmer_John", ⟨256, 0, 0, 0⟩)], []⟩ "block_1" 1).1 "block_1" 1).2 =
      (PoWLottery.select_winner (fun s => s) (fun _ pool => pool.headD "")
        ⟨22, 4, [("Farmer_John", ⟨256, 0, 0, 0⟩)], []⟩ "block_1" 1).2) :=
  C5_lottery_determinism (fun s => s) (fun _ pool => pool.headD "")
    ⟨22, 4, [("Farmer_John", ⟨256, 0, 0, 0⟩)], []⟩
    ⟨22, 4, [("Farmer_John", ⟨256, 7, 3, 5⟩)], ["Farmer_John"]⟩ "block_1" 1 2 rfl

/-- Proposal types (`governance.ProposalType`). -/
inductive ProposalType where
  | reward_adjustment
  | difficulty_tuning
  | parameter_change
  | treasury_spending
  | validator_removal
  | storage_requirement
deriving DecidableEq

/-- Proposal lifecycle status (`governance.ProposalStatus`). -/
inductive ProposalStatus where
  | proposed
  | voting
  | approved
  | rejected
  | executed
  | expired
deriving DecidableEq

/-- The keys of the proposal `proposed_changes` dict read by the execution
code (`_apply_treasury_spending` reads recipient/amount/purpose,
`_apply_reward_changes` overwrites the reward-configuration fields whose
keys are present). -/
structure ProposedChanges where
  recipient : Option String
  amount : Option ℚ
  purpose : Option String
  poc_miner_reward : Option ℚ
  pos_validator_reward : Option ℚ
  pow_lottery_reward : Option ℚ
  storage_reward_per_gb : Option ℚ
  base_transaction_fee : Option ℚ
deriving DecidableEq

/-- A governance proposal (`governance.Proposal`). -/
structure Proposal where
  proposal_id : String
  proposal_type : ProposalType
  proposer : String
  description : String
  proposed_changes : ProposedChanges
  timestamp : ℚ
  voting_deadline : ℚ
  status : ProposalStatus
  votes : List (String × Bool)
  execution_time : Option ℚ
deriving DecidableEq

/-- Whether the voting window is open (`Proposal.is_voting_active`):
`time.time() < voting_deadline and status == VOTING`. -/
def Proposal.is_voting_active (now : ℚ) (p : Proposal) : Bool :=
  if now < p.voting_deadline ∧ p.status = ProposalStatus.voting then true else false

/-- Yes/no tallies (`Proposal.get_vote_count`). -/
def Proposal.get_vote_count (p : Proposal) : Nat × Nat :=
  (p.votes.countP (fun v => v.2), p.votes.countP (fun v => !v.2))

/-- Approval test (`Proposal.is_approved`): yes votes at or above the
threshold. -/
def Proposal.is_approved (p : Proposal) (min_approval : Nat) : Bool :=
  if min_approval ≤ p.get_vote_count.1 then true else false

/-- Reward configuration (`governance.RewardConfiguration`). -/
structure RewardConfiguration where
  poc_miner_reward : ℚ
  pos_validator_reward : ℚ
  pow_lottery_reward : ℚ
  storage_reward_per_gb : ℚ
  base_transaction_fee : ℚ
  timestamp : ℚ
  activated_block : Nat
deriving DecidableEq

/-- The treasury (`governance.Treasury`): balance and per-purpose
allocations.  The append-only `transactions`/`spending_history` logs are
write-only reporting state, never read back by any logic, and are omitted
from the embedding. -/
structure Treasury where
  balance : ℚ
  allocations : List (String × ℚ)
deriving DecidableEq

/-- Spend from an allocation (`Treasury.spend_from_allocation`): fails when
the purpose is absent or underfunded. -/
def Treasury.spend_from_allocation (t : Treasury) (purpose : String) (amount : ℚ)
    (recipient : String) : Treasury × Bool :=
  match lookupA t.allocations purpose with
  | none => (t, false)
  | some a =>
      if a < amount then (t, false)
      else ({ t with allocations := setA t.allocations purpose (a - amount) }, true)

/-- The council governance system (`governance.GovernanceCouncil`).  The
`parameter_history` audit log is write-only and omitted. -/
structure GovernanceCouncil where
  treasurer_id : String
  council_members : List String
  proposals : List (String × Proposal)
  treasury : Treasury
  reward_config : RewardConfiguration
  proposal_counter : Nat
deriving DecidableEq

/-- Reward-table overwrite (`GovernanceCouncil._apply_reward_changes`):
each reward field present in the change map replaces the current value. -/
def apply_reward_changes (rc : RewardConfiguration) (ch : ProposedChanges) :
    RewardConfiguration :=
  { rc with
    poc_miner_reward := ch.poc_miner_reward.getD rc.poc_miner_reward,
    pos_validator_reward := ch.pos_validator_reward.getD rc.pos_validator_reward,
    pow_lottery_reward := ch.pow_lottery_reward.getD rc.pow_lottery_reward,
    storage_reward_per_gb := ch.storage_reward_per_gb.getD rc.storage_reward_per_gb,
    base_transaction_fee := ch.base_transaction_fee.getD rc.base_transaction_fee }

/-- Treasury spending on approval (`_apply_treasury_spending`): guarded by
Python truthiness of recipient and amount (absent, empty or zero skips). -/
def apply_treasury_spending (t : Treasury) (ch : ProposedChanges) : Treasury :=
  match ch.recipient, ch.amount with
  | some r, some a =>
      if r = "" ∨ a = 0 then t
      else (t.spend_from_allocation (ch.purpose.getD "governance_approved") a r).1
  | _, _ => t

/-- Execute an approved proposal (`GovernanceCouncil._execute_proposal`):
stamps the execution time, applies the type-specific effect
(`parameter_change` only appends to the omitted audit log) and sets the
status to executed. -/
def GovernanceCouncil.execute_proposal (now : ℚ) (g : GovernanceCouncil)
    (p : Proposal) : GovernanceCouncil × Proposal :=
  let p1 := { p with execution_time := some now }
  let g1 :=
    match p1.proposal_type with
    | ProposalType.reward_adjustment =>
        { g with reward_config := apply_reward_changes g.reward_config p1.proposed_changes }
    | ProposalType.treasury_spending =>
        { g with treasury := apply_treasury_spending g.treasury p1.proposed_changes }
    | _ => g
  (g1, { p1 with status := ProposalStatus.executed })

/-- Finalize once all council members voted
(`GovernanceCouncil._finalize_proposal`): 3-of-5 approval executes, else
the proposal is rejected. -/
def GovernanceCouncil.finalize_proposal (now : ℚ) (g : GovernanceCouncil)
    (p : Proposal) : GovernanceCouncil × Proposal :=
  if p.is_approved 3 then g.execute_proposal now { p with status := ProposalStatus.approved }
  else (g, { p with status := ProposalStatus.rejected })

/-- Cast a vote (`GovernanceCouncil.vote_on_proposal`): only council
members may vote (the treasurer is not consulted), the window must be
open, and once the number of recorded votes reaches the council size the
proposal is finalized immediately. -/
def GovernanceCouncil.vote_on_proposal (now : ℚ) (g : GovernanceCouncil)
    (proposal_id voter_id : String) (vote : Bool) : GovernanceCouncil × Bool :=
  match lookupA g.proposals proposal_id with
  | none => (g, false)
  | some p =>
      if voter_id ∉ g.council_members then (g, false)
      else if p.is_voting_active now = false then (g, false)
      else
        let p1 := { p with votes := setA p.votes voter_id vote }
        let g1 := { g with proposals := setA g.proposals proposal_id p1 }
        if g.council_members.length ≤ p1.votes.length then
          let fin := g1.finalize_proposal now p1
          ({ fin.1 with proposals := setA fin.1.proposals proposal_id fin.2 }, true)
        else (g1, true)

/-- Zero-padded proposal id (`PROP_{counter:06d}`). -/
def propIdOf (n : Nat) : String :=
  let s := toString n
  "PROP_" ++ String.mk (List.replicate (6 - s.length) (Char.ofNat 48)) ++ s

/-- Create a proposal (`GovernanceCouncil.create_proposal`): bumps the
counter, stores the proposal and immediately moves it to voting with a
deadline `now + hours * 3600`. -/
def GovernanceCouncil.create_proposal (now : ℚ) (g : GovernanceCouncil)
    (proposal_type : ProposalType) (description : String)
    (proposed_changes : ProposedChanges) (voting_period_hours : ℚ) :
    GovernanceCouncil × String :=
  let counter := g.proposal_counter + 1
  let pid := propIdOf counter
  let p : Proposal := ⟨pid, proposal_type, g.treasurer_id, description, proposed_changes,
    now, now + voting_period_hours * 3600, ProposalStatus.voting, [], none⟩
  ({ g with proposal_counter := counter, proposals := setA g.proposals pid p }, pid)

/-- A PoS validator (`consensus.PoSValidator`). -/
structure PoSValidator where
  validator_id : String
  role : String
  min_stake : ℚ
  total_staked : ℚ
  blocks_validated : Nat
  slashing_count : Nat
deriving DecidableEq

/-- A pending block proposal of the PoS layer (the dict stored by
`PoSConsensus.propose_block`); the opaque `data` payload is modelled by its
serialized form. -/
structure PendingProposal where
  data : String
  proposer : String
  votes : List (String × Bool)
  timestamp : ℚ
deriving DecidableEq

/-- The PoS consensus layer (`consensus.PoSConsensus`). -/
structure PoSConsensus where
  treasurer : PoSValidator
  council : List (String × PoSValidator)
  min_council_approval : Nat
  pending_proposals : List (String × PendingProposal)
deriving DecidableEq

/-- Vote on a pending block proposal (`PoSConsensus.vote_on_proposal`):
council members and the treasurer may vote; there is no deadline or
status check on this path. -/
def PoSConsensus.vote_on_proposal (c : PoSConsensus) (block_hash voter_id : String)
    (vote : Bool) : PoSConsensus × Bool :=
  match lookupA c.pending_proposals block_hash with
  | none => (c, false)
  | some pp =>
      if lookupA c.council voter_id = none ∧ voter_id ≠ c.treasurer.validator_id then
        (c, false)
      else
        let pp1 := { pp with votes := setA pp.votes voter_id vote }
        ({ c with pending_proposals := setA c.pending_proposals block_hash pp1 }, true)

/-- An empty proposed-changes map. -/
def noChanges : ProposedChanges := ⟨none, none, none, none, none, none, none, none⟩

/-- Default reward configuration (`RewardConfiguration` field defaults). -/
def rcDefault : RewardConfiguration := ⟨10, 5, 2, 1 / 10, 1 / 100, 0, 0⟩

/-- A governance council with a treasurer and five council members. -/
def govBase : GovernanceCouncil :=
  ⟨"TREASURER_Alice", ["M1", "M2", "M3", "M4", "M5"], [], ⟨1000000, []⟩, rcDefault, 0⟩

/-- The council with one freshly created proposal (deadline 86400, status
voting, no votes yet). -/
def govC4 : GovernanceCouncil :=
  (govBase.create_proposal 0 ProposalType.parameter_change "tune parameters" noChanges 24).1

/-- C8 counterexample: a vote by the treasurer on an existing proposal whose
voting window is wide open is rejected by
`GovernanceCouncil.vote_on_proposal` — only council members pass the
voter check, contradicting the claim that a treasurer vote succeeds. -/
theorem C8_counterexample :
    lookupA govC4.proposals "PROP_000001" =
      some ⟨"PROP_000001", ProposalType.parameter_change, "TREASURER_Alice",
        "tune parameters", noChanges, 0, 86400, ProposalStatus.voting, [], none⟩ ∧
    ((0 : ℚ) < 86400) ∧
    govC4.treasurer_id = "TREASURER_Alice" ∧
    (govC4.vote_on_proposal 0 "PROP_000001" "TREASURER_Alice" true).2 = false := by
  refine ⟨?_, by norm_num, rfl, ?_⟩
  · norm_num +decide [govC4, govBase, GovernanceCouncil.create_proposal, propIdOf,
      noChanges, lookupA, setA]
  · norm_num +decide [govC4, govBase, GovernanceCouncil.create_proposal, propIdOf,
      GovernanceCouncil.vote_on_proposal, lookupA, setA]

/-- C8 amended: the governance-council vote succeeds exactly when the
proposal exists, the voter is a council member (the treasurer is rejected
unless it is also a council member) and the voting window is open; the
PoS consensus-layer vote succeeds exactly when the pending proposal exists
and the voter is a council member or the treasurer, with no voting-window
check on that path. -/
theorem C8_amended (now : ℚ) (g : GovernanceCouncil) (pid voter : String) (b : Bool)
    (c : PoSConsensus) (bh v : String) (b2 : Bool) :
    ((g.vote_on_proposal now pid voter b).2 = true ↔
      ∃ p, lookupA g.proposals pid = some p ∧ voter ∈ g.council_members ∧
        now < p.voting_deadline ∧ p.status = ProposalStatus.voting) ∧
    ((c.vote_on_proposal bh v b2).2 = true ↔
      (lookupA c.pending_proposals bh).isSome ∧
        (¬ lookupA c.council v = none ∨ v = c.treasurer.validator_id)) := by
  constructor
  · cases hlk : lookupA g.proposals pid with
    | none => simp [GovernanceCouncil.vote_on_proposal, hlk]
    | some p =>
      simp only [GovernanceCouncil.vote_on_proposal, hlk]
      by_cases hmem : voter ∈ g.council_members
      · by_cases hact : now < p.voting_deadline ∧ p.status = ProposalStatus.voting
        · have hactive : p.is_voting_active now = true := by
            simp [Proposal.is_voting_active, hact]
          rw [if_neg (not_not_intro hmem), if_neg (by simp [hactive])]
          constructor
          · intro _
            exact ⟨p, rfl, hmem, hact.1, hact.2⟩
          · intro _
            split <;> rfl
        · have hactive : p.is_voting_active now = false := by
            simp only [Proposal.is_voting_active, if_neg hact]
          rw [if_neg (not_not_intro hmem), if_pos (by simp [hactive])]
          simp only [Prod.snd]
          constructor
          · intro h
            exact absurd h (by simp)
          · rintro ⟨p2, hp2, -, h1, h2⟩
            cases hp2
            exact absurd ⟨h1, h2⟩ hact
      · rw [if_pos hmem]
        constructor
        · intro h
          exact absurd h (by simp)
        · rintro ⟨p2, -, hm, -⟩
          exact absurd hm hmem
  · cases hlk : lookupA c.pending_proposals bh with
    | none => simp [PoSConsensus.vote_on_proposal, hlk]
    | some pp =>
      simp only [PoSConsensus.vote_on_proposal, hlk]
      by_cases hv : lookupA c.council v = none ∧ v ≠ c.treasurer.validator_id
      · rw [if_pos hv]
        constructor
        · intro h
          exact absurd h (by simp)
        · rintro ⟨-, hor⟩
          rcases hor with h1 | h2
          · exact absurd hv.1 h1
          · exact absurd h2 hv.2
      · rw [if_neg hv]
        constructor
        · intro _
          refine ⟨by simp, ?_⟩
          by_cases h1 : lookupA c.council v = none
          · right
            by_contra h2
            exact hv ⟨h1, h2⟩
          · left
            exact h1
        · intro _
          rfl

/-- Folding a sequence of vote calls on the governance council. -/
def voteFold (now : ℚ) (pid : String) (g : GovernanceCouncil)
    (l : List (String × Bool)) : GovernanceCouncil :=
  l.foldl (fun gg x => (gg.vote_on_proposal now pid x.1 x.2).1) g

/-- The proposal record produced by finalization: executed (with the
execution time stamped) on 3-of-5 approval, rejected otherwise. -/
def finalizedProposal (now : ℚ) (p : Proposal) (votes : List (String × Bool)) : Proposal :=
  if 3 ≤ votes.countP (fun v => v.2) then
    { p with votes := votes, status := ProposalStatus.executed, execution_time := some now }
  else
    { p with votes := votes, status := ProposalStatus.rejected }

theorem vote_step_nofin (now : ℚ) (g : GovernanceCouncil) (pid m : String) (b : Bool)
    (p : Proposal) (hlk : lookupA g.proposals pid = some p)
    (hmem : m ∈ g.council_members) (hact : now < p.voting_deadline)
    (hst : p.status = ProposalStatus.voting) (hfresh : lookupA p.votes m = none)
    (hlen : p.votes.length + 1 < g.council_members.length) :
    (g.vote_on_proposal now pid m b).1 =
      { g with proposals := setA g.proposals pid { p with votes := p.votes ++ [(m, b)] } } := by
  have hvotes : setA p.votes m b = p.votes ++ [(m, b)] := setA_absent p.votes m b hfresh
  have hactive : p.is_voting_active now = true := by
    simp [Proposal.is_voting_active, hact, hst]
  simp only [GovernanceCouncil.vote_on_proposal, hlk]
  rw [if_neg (not_not_intro hmem), if_neg (by simp [hactive])]
  simp only [hvotes]
  rw [if_neg (by simp only [List.length_append, List.length_singleton]; omega)]

theorem vote_step_fin (now : ℚ) (g : GovernanceCouncil) (pid m : String) (b : Bool)
    (p : Proposal) (hlk : lookupA g.proposals pid = some p)
    (hmem : m ∈ g.council_members) (hact : now < p.voting_deadline)
    (hst : p.status = ProposalStatus.voting) (hfresh : lookupA p.votes m = none)
    (hlen : g.council_members.length ≤ p.votes.length + 1) :
    lookupA ((g.vote_on_proposal now pid m b).1).proposals pid =
      some (finalizedProposal now p (p.votes ++ [(m, b)])) := by
  have hvotes : setA p.votes m b = p.votes ++ [(m, b)] := setA_absent p.votes m b hfresh
  have hactive : p.is_voting_active now = true := by
    simp [Proposal.is_voting_active, hact, hst]
  simp only [GovernanceCouncil.vote_on_proposal, hlk]
  rw [if_neg (not_not_intro hmem), if_neg (by simp [hactive])]
  simp only [hvotes]
  rw [if_pos (by simp only [List.length_append, List.length_singleton]; omega)]
  rw [lookupA_setA, if_pos rfl]
  simp only [GovernanceCouncil.finalize_proposal, Proposal.is_approved,
    Proposal.get_vote_count, finalizedProposal]
  by_cases happ : 3 ≤ (p.votes ++ [(m, b)]).countP (fun v => v.2)
  · rw [if_pos happ, if_pos (by simp [happ]), if_pos happ]
    rfl
  · rw [if_neg happ, if_neg (by simp [happ]), if_neg happ]

theorem voteFold_run (now : ℚ) (pid : String) :
    ∀ (l : List (String × Bool)) (g : GovernanceCouncil) (p : Proposal),
      lookupA g.proposals pid = some p →
      p.status = ProposalStatus.voting →
      now < p.voting_deadline →
      (∀ x ∈ l, x.1 ∈ g.council_members) →
      (l.map Prod.fst).Nodup →
      (∀ x ∈ l, lookupA p.votes x.1 = none) →
      p.votes.length + l.length ≤ g.council_members.length →
      (p.votes.length + l.length < g.council_members.length →
        lookupA (voteFold now pid g l).proposals pid =
          some { p with votes := p.votes ++ l }) ∧
      (p.votes.length + l.length = g.council_members.length → l ≠ [] →
        lookupA (voteFold now pid g l).proposals pid =
          some (finalizedProposal now p (p.votes ++ l))) := by
  intro l
  induction l with
  | nil =>
    intro g p hlk hst hact hmem hnd hfresh hlen
    constructor
    · intro _
      simpa [voteFold] using hlk
    · intro _ hne
      exact absurd rfl hne
  | cons x xs ih =>
    intro g p hlk hst hact hmem hnd hfresh hlen
    obtain ⟨m, b⟩ := x
    have hmem1 : m ∈ g.council_members := hmem (m, b) (List.mem_cons_self _ _)
    have hfresh1 : lookupA p.votes m = none := hfresh (m, b) (List.mem_cons_self _ _)
    have hnotin : m ∉ xs.map Prod.fst := by
      simp only [List.map_cons, List.nodup_cons] at hnd
      exact hnd.1
    have hndxs : (xs.map Prod.fst).Nodup := by
      simp only [List.map_cons, List.nodup_cons] at hnd
      exact hnd.2
    by_cases hfin : g.council_members.length ≤ p.votes.length + 1
    · have hxs : xs = [] := by
        cases xs with
        | nil => rfl
        | cons y ys =>
          simp only [List.length_cons] at hlen
          omega
      subst hxs
      constructor
      · intro hlt
        simp only [List.length_cons, List.length_nil] at hlt
        omega
      · intro heq hne
        have hstep := vote_step_fin now g pid m b p hlk hmem1 hact hst hfresh1 hfin
        simpa [voteFold] using hstep
    · push_neg at hfin
      have hstep := vote_step_nofin now g pid m b p hlk hmem1 hact hst hfresh1 hfin
      have hlk1 : lookupA ((g.vote_on_proposal now pid m b).1).proposals pid =
          some { p with votes := p.votes ++ [(m, b)] } := by
        rw [hstep]
        simp [lookupA_setA]
      have hfold : voteFold now pid g ((m, b) :: xs) =
          voteFold now pid (g.vote_on_proposal now pid m b).1 xs := by
        simp only [voteFold, List.foldl_cons]
      have hcouncil : ((g.vote_on_proposal now pid m b).1).council_members =
          g.council_members := by
        rw [hstep]
      have hih := ih (g.vote_on_proposal now pid m b).1 { p with votes := p.votes ++ [(m, b)] }
        hlk1 hst hact
        (by
          intro y hy
          rw [hcouncil]
          exact hmem y (List.mem_cons_of_mem _ hy))
        hndxs
        (by
          intro y hy
          have h1 := hfresh y (List.mem_cons_of_mem _ hy)
          have h2 : ¬ m = y.1 := by
            intro hEq
            exact hnotin (hEq ▸ List.mem_map_of_mem Prod.fst hy)
          show lookupA (p.votes ++ [(m, b)]) y.1 = none
          rw [lookupA_append, h1]
          simp [lookupA, h2])
        (by
          rw [hcouncil]
          simp only [List.length_append, List.length_singleton]
          simp only [List.length_cons] at hlen
          omega)
      constructor
      · intro hlt
        rw [hfold]
        have hres := hih.1 (by
          rw [hcouncil]
          simp only [List.length_append, List.length_singleton]
          simp only [List.length_cons] at hlt
          omega)
        rw [hres]
        simp [List.append_assoc]
      · intro heq hne
        rw [hfold]
        have hxsne : xs ≠ [] := by
          intro hh
          subst hh
          simp only [List.length_cons, List.length_nil] at heq
          omega
        have hres := hih.2 (by
          rw [hcouncil]
          simp only [List.length_append, List.length_singleton]
          simp only [List.length_cons] at heq
          omega) hxsne
        rw [hres]
        simp [finalizedProposal, List.append_assoc]

/-- The proposal stored in `govC4`. -/
def p0C4 : Proposal :=
  ⟨"PROP_000001", ProposalType.parameter_change, "TREASURER_Alice", "tune parameters",
    noChanges, 0, 86400, ProposalStatus.voting, [], none⟩

theorem govC4_lookup : lookupA govC4.proposals "PROP_000001" = some p0C4 := by
  norm_num +decide [govC4, govBase, GovernanceCouncil.create_proposal, propIdOf,
    p0C4, lookupA, setA]

/-- Three yes votes, two members unvoted. -/
def lC4three : List (String × Bool) := [("M1", true), ("M2", true), ("M3", true)]

/-- All five members vote, three yes and two no, in mixed order. -/
def lC4full : List (String × Bool) :=
  [("M1", true), ("M4", false), ("M2", true), ("M3", true), ("M5", false)]

/-- C4 counterexample: with a 5-member council, (a) three yes votes with
two members unvoted never finalize the proposal — its status stays
`voting`, not `approved`, because finalization only triggers once all five
have voted and no deadline path exists in the code; (b) even when all five
vote (three yes, two no), the finalized proposal has status `executed`
(approval immediately executes and overwrites the status), not
`approved`. -/
theorem C4_counterexample :
    ((lookupA (voteFold 0 "PROP_000001" govC4 lC4three).proposals "PROP_000001").map
        Proposal.status = some ProposalStatus.voting) ∧
    ((lookupA (voteFold 0 "PROP_000001" govC4 lC4full).proposals "PROP_000001").map
        Proposal.status = some ProposalStatus.executed) ∧
    ProposalStatus.voting ≠ ProposalStatus.approved ∧
    ProposalStatus.executed ≠ ProposalStatus.approved := by
  refine ⟨?_, ?_, by decide, by decide⟩
  · norm_num +decide [govC4, govBase, GovernanceCouncil.create_proposal, propIdOf,
      voteFold, lC4three, GovernanceCouncil.vote_on_proposal,
      Proposal.is_voting_active, lookupA, setA, noChanges]
  · norm_num +decide [govC4, govBase, GovernanceCouncil.create_proposal, propIdOf,
      voteFold, lC4full, GovernanceCouncil.vote_on_proposal,
      GovernanceCouncil.finalize_proposal, GovernanceCouncil.execute_proposal,
      Proposal.is_voting_active, Proposal.is_approved, Proposal.get_vote_count,
      lookupA, setA, noChanges]

/-- C4 amended: on a 5-member council with an open proposal, once every
council member has voted — in any order, with any yes/no mix — the
proposal is finalized immediately (well before the deadline): with at
least 3 yes votes it is approved and synchronously executed, ending with
status `executed`; with fewer (e.g. exactly 2 yes) it ends `rejected`.
If any member has not voted, the proposal is not finalized and stays in
`voting` (the treasurer is not part of the electorate). -/
theorem C4_amended (l : List (String × Bool))
    (hperm : List.Perm (l.map Prod.fst) govC4.council_members) :
    ((lookupA (voteFold 0 "PROP_000001" govC4 l).proposals "PROP_000001").map
        Proposal.status =
      some (if 3 ≤ l.countP (fun v => v.2) then ProposalStatus.executed
        else ProposalStatus.rejected)) ∧
    ∀ l2 : List (String × Bool), (l2.map Prod.fst).Nodup →
      (∀ x ∈ l2, x.1 ∈ govC4.council_members) → l2.length < 5 →
      (lookupA (voteFold 0 "PROP_000001" govC4 l2).proposals "PROP_000001").map
        Proposal.status = some ProposalStatus.voting := by
  have hnodupC : govC4.council_members.Nodup := by decide
  have hlenC : govC4.council_members.length = 5 := by decide
  constructor
  · have hlen5 : l.length = 5 := by
      have := hperm.length_eq
      simpa [hlenC] using this
    have hrun := (voteFold_run 0 "PROP_000001" l govC4 p0C4 govC4_lookup rfl
      (by norm_num [p0C4])
      (fun x hx => hperm.subset (List.mem_map_of_mem Prod.fst hx))
      (hperm.nodup_iff.mpr hnodupC)
      (fun x _ => rfl)
      (by simp [p0C4, hlen5, hlenC])).2
      (by simp [p0C4, hlen5, hlenC])
      (by intro hh; rw [hh] at hlen5; simp at hlen5)
    rw [hrun]
    simp only [finalizedProposal, p0C4, List.nil_append]
    by_cases hc : 3 ≤ l.countP (fun v => v.2)
    · rw [if_pos hc, if_pos hc]
      rfl
    · rw [if_neg hc, if_neg hc]
      rfl
  · intro l2 hnd hmem hlen
    have hrun := (voteFold_run 0 "PROP_000001" l2 govC4 p0C4 govC4_lookup rfl
      (by norm_num [p0C4]) hmem hnd (fun x _ => rfl)
      (by simp [p0C4, hlenC]; omega)).1
      (by simp [p0C4, hlenC]; omega)
    rw [hrun]
    rfl

theorem C4_witness :
    ((lookupA (voteFold 0 "PROP_000001" govC4 lC4full).proposals "PROP_000001").map
        Proposal.status =
      some (if 3 ≤ lC4full.countP (fun v => v.2) then ProposalStatus.executed
        else ProposalStatus.rejected)) ∧
    (lookupA (voteFold 0 "PROP_000001" govC4 lC4three).proposals "PROP_000001").map
        Proposal.status = some ProposalStatus.voting :=
  ⟨(C4_amended lC4full (by decide)).1,
    (C4_amended lC4full (by decide)).2 lC4three (by decide) (by decide) (by decide)⟩

/-- P2P message types (`network.MessageType`). -/
inductive MessageType where
  | peer_hello
  | peer_discovery
  | block_announce
  | block_request
  | block_response
  | transaction
  | sync_request
  | sync_response
  | vote_message
  | storage_pledge_msg
  | ping
  | pong
deriving DecidableEq

/-- The string value of the enum (`MessageType.value`). -/
def msgTypeStr : MessageType → String
  | .peer_hello => "peer_hello"
  | .peer_discovery => "peer_discovery"
  | .block_announce => "block_announce"
  | .block_request => "block_request"
  | .block_response => "block_response"
  | .transaction => "transaction"
  | .sync_request => "sync_request"
  | .sync_response => "sync_response"
  | .vote_message => "vote_message"
  | .storage_pledge_msg => "storage_pledge"
  | .ping => "ping"
  | .pong => "pong"

/-- A P2P message (`network.Message`); the opaque payload dict is modelled
by its canonical serialization. -/
structure Message where
  message_id : String
  message_type : MessageType
  sender_id : String
  timestamp : ℚ
  payload : String
  ttl : ℤ
deriving DecidableEq

/-- Canonical serialization of the dedup-hash input of `Message.hash`
(the json dump with sorted keys), modelled as a deterministic field
concatenation in sorted key order. -/
def encodeMsgData (mt ph sid : String) (ts : ℚ) : String :=
  "message_type=" ++ mt ++ ";payload_hash=" ++ ph ++ ";sender_id=" ++ sid ++
    ";timestamp=" ++ toString ts.num ++ "/" ++ toString ts.den

/-- The dedup hash (`Message.hash`): digest over sender, type, timestamp
and the payload digest — the `ttl` and `message_id` fields are excluded. -/
def Message.hash (sha256 : String → String) (m : Message) : String :=
  sha256 (encodeMsgData (msgTypeStr m.message_type) (sha256 m.payload) m.sender_id m.timestamp)

/-- The gossip layer (`network.GossipProtocol`): seen-set (modelled as the
insertion-ordered list backing the Python set) and propagation queue. -/
structure GossipProtocol where
  max_fanout : Nat
  message_history : List String
  max_history : Nat
  message_queue : List Message
deriving DecidableEq

/-- Propagation guard (`GossipProtocol.should_propagate`): false on a seen
dedup hash or an exhausted ttl. -/
def GossipProtocol.should_propagate (sha256 : String → String) (g : GossipProtocol)
    (m : Message) : Bool :=
  if m.hash sha256 ∈ g.message_history then false
  else if m.ttl ≤ 0 then false
  else true

/-- Record a message in the seen-set (`GossipProtocol.add_to_history`),
then bound its size by keeping the `max_history` most recent entries
(the Python slice keeps the trailing n entries; a slice bound of minus
zero keeps the whole list, and the Python set iteration order is
unspecified — the model keeps
insertion order). -/
def GossipProtocol.add_to_history (sha256 : String → String) (g : GossipProtocol)
    (m : Message) : GossipProtocol :=
  let h := m.hash sha256
  let hist := if h ∈ g.message_history then g.message_history else g.message_history ++ [h]
  let hist2 :=
    if g.max_history < hist.length then
      if g.max_history = 0 then hist else hist.drop (hist.length - g.max_history)
    else hist
  { g with message_history := hist2 }

/-- Submit a message for propagation (`GossipProtocol.add_message`): queue
it and record it as seen when `should_propagate` allows, drop it
otherwise. -/
def GossipProtocol.add_message (sha256 : String → String) (g : GossipProtocol)
    (m : Message) : GossipProtocol :=
  if g.should_propagate sha256 m then
    GossipProtocol.add_to_history sha256 { g with message_queue := g.message_queue ++ [m] } m
  else g

theorem hash_mem_add_message (sha256 : String → String) (g : GossipProtocol)
    (m : Message) (hfresh : m.hash sha256 ∉ g.message_history) (httl : 0 < m.ttl) :
    m.hash sha256 ∈ (g.add_message sha256 m).message_history := by
  have hsp : g.should_propagate sha256 m = true := by
    simp only [GossipProtocol.should_propagate, if_neg hfresh]
    rw [if_neg (by omega)]
  simp only [GossipProtocol.add_message, hsp, if_pos rfl, GossipProtocol.add_to_history]
  rw [if_neg hfresh]
  by_cases hb : g.max_history < (g.message_history ++ [m.hash sha256]).length
  · rw [if_pos hb]
    by_cases h0 : g.max_history = 0
    · rw [if_pos h0]
      simp
    · rw [if_neg h0]
      have hk : (g.message_history ++ [m.hash sha256]).length - g.max_history ≤
          g.message_history.length := by
        simp only [List.length_append, List.length_singleton]
        omega
      rw [List.drop_append_of_le_length hk]
      simp
  · rw [if_neg hb]
    simp

/-- C9: submitting a fresh message with positive ttl queues it exactly
once: a second submission of the same message — or of a copy differing
only in `ttl` and `message_id`, since the dedup hash excludes both — is
dropped, leaving the queue unchanged; and a message with `ttl ≤ 0` is
never propagated (`should_propagate` is false and the submission is a
no-op). -/
theorem add_message_of_not_propagate (sha256 : String → String) (g : GossipProtocol)
    (m : Message) (h : g.should_propagate sha256 m = false) :
    g.add_message sha256 m = g := by
  simp only [GossipProtocol.add_message, h]
  rw [if_neg (by simp)]

theorem C9_gossip_dedup (sha256 : String → String) (g : GossipProtocol) (m m2 : Message)
    (hfresh : m.hash sha256 ∉ g.message_history) (httl : 0 < m.ttl)
    (hsame : m2.sender_id = m.sender_id ∧ m2.message_type = m.message_type ∧
      m2.timestamp = m.timestamp ∧ m2.payload = m.payload) :
    (g.add_message sha256 m).message_queue = g.message_queue ++ [m] ∧
    ((g.add_message sha256 m).add_message sha256 m2).message_queue =
      g.message_queue ++ [m] ∧
    (∀ (g2 : GossipProtocol) (m0 : Message), m0.ttl ≤ 0 →
      g2.should_propagate sha256 m0 = false ∧ g2.add_message sha256 m0 = g2) := by
  have hsp : g.should_propagate sha256 m = true := by
    simp only [GossipProtocol.should_propagate, if_neg hfresh]
    rw [if_neg (by omega)]
  have hhash : m2.hash sha256 = m.hash sha256 := by
    simp only [Message.hash, hsame.1, hsame.2.1, hsame.2.2.1, hsame.2.2.2]
  have hq1 : (g.add_message sha256 m).message_queue = g.message_queue ++ [m] := by
    simp [GossipProtocol.add_message, hsp, GossipProtocol.add_to_history]
  refine ⟨hq1, ?_, ?_⟩
  · have hmem := hash_mem_add_message sha256 g m hfresh httl
    have hsp2 : (g.add_message sha256 m).should_propagate sha256 m2 = false := by
      simp only [GossipProtocol.should_propagate, hhash]
      rw [if_pos hmem]
    rw [add_message_of_not_propagate sha256 _ m2 hsp2]
    exact hq1
  · intro g2 m0 h0
    have hsp0 : g2.should_propagate sha256 m0 = false := by
      simp only [GossipProtocol.should_propagate]
      by_cases hm : m0.hash sha256 ∈ g2.message_history
      · rw [if_pos hm]
      · rw [if_neg hm, if_pos h0]
    exact ⟨hsp0, add_message_of_not_propagate sha256 g2 m0 hsp0⟩

theorem C9_witness :
    (let g0 : GossipProtocol := ⟨5, [], 1000, []⟩
     let m : Message := ⟨"msg_1", MessageType.block_announce, "Farmer_John", 7, "payload", 64⟩
     let m2 : Message := ⟨"msg_2", MessageType.block_announce, "Farmer_John", 7, "payload", 63⟩
     (g0.add_message (fun s => s) m).message_queue = g0.message_queue ++ [m] ∧
     ((g0.add_message (fun s => s) m).add_message (fun s => s) m2).message_queue =
       g0.message_queue ++ [m] ∧
     (∀ (g2 : GossipProtocol) (m0 : Message), m0.ttl ≤ 0 →
       g2.should_propagate (fun s => s) m0 = false ∧
         g2.add_message (fun s => s) m0 = g2)) :=
  C9_gossip_dedup (fun s => s) ⟨5, [], 1000, []⟩
    ⟨"msg_1", MessageType.block_announce, "Farmer_John", 7, "payload", 64⟩
    ⟨"msg_2", MessageType.block_announce, "Farmer_John", 7, "payload", 63⟩
    (by simp) (by decide) ⟨rfl, rfl, rfl, rfl⟩

/-- String form of an optional value in a serialized dict. -/
def encodeOptStr : Option String → String
  | none => "None"
  | some s => s

/-- String form of an optional rational in a serialized dict. -/
def encodeOptQ : Option ℚ → String
  | none => "None"
  | some q => toString q.num ++ "/" ++ toString q.den

/-- The string value of the enum (`TransactionType.value`). -/
def txTypeStr : TransactionType → String
  | .transfer => "transfer"
  | .stake_deposit => "stake_deposit"
  | .stake_withdraw => "stake_withdraw"
  | .storage_pledge => "storage_pledge"
  | .storage_revoke => "storage_revoke"
  | .governance_vote => "governance_vote"

/-- Canonical serialization of a transaction for hashing
(`json.dumps(to_dict, sort_keys=True)`), modelled as a deterministic
concatenation of all fields in sorted key order. -/
def encodeTx (tx : Transaction) : String :=
  "amount=" ++ toString tx.amount.num ++ "/" ++ toString tx.amount.den ++
    ";data.capacity_gb=" ++ encodeOptQ tx.data.capacity_gb ++
    ";data.proof_hash=" ++ encodeOptStr tx.data.proof_hash ++
    ";nonce=" ++ toString tx.nonce ++
    ";receiver=" ++ tx.receiver ++
    ";sender=" ++ tx.sender ++
    ";signature=" ++ encodeOptStr tx.signature ++
    ";timestamp=" ++ toString tx.timestamp.num ++ "/" ++ toString tx.timestamp.den ++
    ";tx_id=" ++ tx.tx_id ++
    ";tx_type=" ++ txTypeStr tx.tx_type

/-- One pairing pass of the merkle construction: hash adjacent pairs. -/
def merklePairs (sha256 : String → String) : List String → List String
  | a :: b :: r => sha256 (a ++ b) :: merklePairs sha256 r
  | _ => []

/-- One level of `Block.calculate_merkle_root`: duplicate the last hash on
odd counts, then pair. -/
def merkleLevel (sha256 : String → String) (l : List String) : List String :=
  merklePairs sha256 (if l.length % 2 ≠ 0 then l ++ [l.getLastD ""] else l)

/-- The `while len > 1` loop of the merkle construction, fuelled by the
initial leaf count (each pass at least halves a list of length ≥ 2, so the
fuel always suffices to reach a single root). -/
def merkleLoop (sha256 : String → String) : Nat → List String → List String
  | 0, l => l
  | fuel + 1, l => if l.length ≤ 1 then l else merkleLoop sha256 fuel (merkleLevel sha256 l)

/-- Merkle root of a transaction list (`Block.calculate_merkle_root`):
digest of the empty string for no transactions, else the binary-tree root
over the transaction hashes. -/
def calculate_merkle_root (sha256 : String → String) (txs : List Transaction) : String :=
  if txs = [] then sha256 ""
  else (merkleLoop sha256 txs.length (txs.map (fun tx => sha256 (encodeTx tx)))).headD ""

/-- Insertion into a sorted string list. -/
def insertStr (s : String) : List String → List String
  | [] => [s]
  | a :: r => if s ≤ a then s :: a :: r else a :: insertStr s r

/-- Python `sorted` on strings. -/
def sortStrs (l : List String) : List String := l.foldr insertStr []

/-- Canonical serialization of the block-hash input of
`Block.calculate_hash`: exactly the nine fields the source hashes, in its
sorted-key dict form.  Note the `transactions` and `pow_lottery_winner`
fields are absent — only the stored `merkle_root` is included. -/
def encodeBlockData (index : Nat) (previous_hash : String) (timestamp : ℚ)
    (merkle_root miner : String) (validators : List String)
    (poc_difficulty nonce : Nat) (state_root : Option String) : String :=
  "index=" ++ toString index ++
    ";merkle_root=" ++ merkle_root ++
    ";miner=" ++ miner ++
    ";nonce=" ++ toString nonce ++
    ";poc_difficulty=" ++ toString poc_difficulty ++
    ";previous_hash=" ++ previous_hash ++
    ";state_root=" ++ encodeOptStr state_root ++
    ";timestamp=" ++ toString timestamp.num ++ "/" ++ toString timestamp.den ++
    ";validators=" ++ String.intercalate "," validators

/-- Block hash (`Block.calculate_hash`): digest over index, previous hash,
timestamp, stored merkle root, miner, sorted validators, difficulty, nonce
and state root. -/
def Block.calculate_hash (sha256 : String → String) (b : Block) : String :=
  sha256 (encodeBlockData b.index b.previous_hash b.timestamp b.merkle_root b.miner
    (sortStrs b.validators) b.poc_difficulty b.nonce b.state_root)

/-- The `Block` constructor: computes the merkle root from the transaction
list (the default path, no explicit root passed) and stores the hash. -/
def mkBlock (sha256 : String → String) (index : Nat) (previous_hash : String)
    (timestamp : ℚ) (transactions : List Transaction) (miner : String)
    (validators : List String) (poc_difficulty : Nat)
    (pow_lottery_winner : Option String) (nonce : Nat)
    (state_root : Option String) : Block :=
  let mr := calculate_merkle_root sha256 transactions
  let b0 : Block := ⟨index, previous_hash, timestamp, transactions, miner, validators,
    poc_difficulty, pow_lottery_winner, nonce, mr, state_root, ""⟩
  { b0 with hash := b0.calculate_hash sha256 }

/-- The genesis transaction (`Transaction.create_genesis_tx`); its data
dict carries only a note, which the logic never reads. -/
def genesisTx (now : ℚ) : Transaction :=
  ⟨"GENESIS_SIMCOIN", now, "SYSTEM", "FCU_TREASURY", 1000000, .transfer, 0, none, ⟨none, none⟩⟩

/-- The genesis block (`Blockchain._create_genesis_block`). -/
def genesis_block (sha256 : String → String) (now : ℚ) : Block :=
  mkBlock sha256 0 "0" now [genesisTx now] "GENESIS_SYSTEM" ["GENESIS_SYSTEM"] 1 none 0 none

/-- A freshly initialized blockchain (`Blockchain.__init__`): genesis block
appended and the treasury credited. -/
def init_blockchain (sha256 : String → String) (now : ℚ) : Blockchain :=
  ⟨"FCU_MAINNET", [genesis_block sha256 now], [("FCU_TREASURY", 1000000)], [], [], []⟩

/-- Append a newly mined block (the construction in `PoCMinerNode.mine_block`:
index = tip index + 1, previous_hash = tip hash, followed by
`chain.append`). -/
def append_mined_block (sha256 : String → String) (bc : Blockchain) (timestamp : ℚ)
    (transactions : List Transaction) (miner : String) (validators : List String)
    (poc_difficulty nonce : Nat) : Blockchain :=
  match bc.chain.getLast? with
  | none => bc
  | some latest =>
      { bc with chain := bc.chain ++ [mkBlock sha256 (latest.index + 1) latest.hash
          timestamp transactions miner validators poc_difficulty none nonce none] }

/-- The loop body of `Blockchain.validate_chain` over consecutive block
pairs: stored hash must match the recomputed hash, and the block must
chain onto its predecessor. -/
def validatePairs (sha256 : String → String) : List Block → Bool
  | b1 :: b2 :: r =>
      if b2.hash ≠ b2.calculate_hash sha256 then false
      else if b2.previous_hash ≠ b1.hash then false
      else validatePairs sha256 (b2 :: r)
  | _ => true

/-- Chain validation (`Blockchain.validate_chain`). -/
def Blockchain.validate_chain (sha256 : String → String) (bc : Blockchain) : Bool :=
  validatePairs sha256 bc.chain

theorem validatePairs_cons (sha256 : String → String) (b1 b2 : Block) (r : List Block)
    (h1 : b2.hash = b2.calculate_hash sha256) (h2 : b2.previous_hash = b1.hash) :
    validatePairs sha256 (b1 :: b2 :: r) = validatePairs sha256 (b2 :: r) := by
  simp only [validatePairs]
  rw [if_neg (not_not_intro h1), if_neg (not_not_intro h2)]

/-- Replace the transaction list of a block in place, leaving its stored hash
and merkle root untouched (in-memory tampering). -/
def setTxs (b : Block) (txs : List Transaction) : Block := { b with transactions := txs }

/-- Tamper with the transactions of the second block of a chain. -/
def tamperBlock1 (bc : Blockchain) (txs : List Transaction) : Blockchain :=
  { bc with chain :=
      match bc.chain with
      | g :: b :: r => g :: setTxs b txs :: r
      | l => l }

/-- A 5-token transfer recorded in the appended block. -/
def txB : Transaction :=
  ⟨"TX_B", 1, "FCU_TREASURY", "Farmer_John", 5, .transfer, 0, none, ⟨none, none⟩⟩

/-- The same transaction with its amount flipped from 5 to 6. -/
def txBtampered : Transaction :=
  ⟨"TX_B", 1, "FCU_TREASURY", "Farmer_John", 6, .transfer, 0, none, ⟨none, none⟩⟩

/-- Genesis plus one appended block holding the 5-token transfer. -/
def chainC2 (sha256 : String → String) : Blockchain :=
  append_mined_block sha256 (init_blockchain sha256 0) 1 [txB] "Farmer_John"
    ["COUNCIL_Bob", "TREASURER_Alice"] 4 7

/-- The appended block of `chainC2`. -/
def blockB (sha256 : String → String) : Block :=
  mkBlock sha256 ((genesis_block sha256 0).index + 1) ((genesis_block sha256 0).hash) 1
    [txB] "Farmer_John" ["COUNCIL_Bob", "TREASURER_Alice"] 4 none 7 none

/-- C2: the tamper-evidence claim fails on the code.  A chain built only by
appending valid blocks does validate; but flipping the amount of a transaction
inside a stored block leaves `validate_chain` returning true, because
`calculate_hash` hashes the stored `merkle_root` field (never recomputing
it from the transactions, which it does not hash at all — nor does it hash
`pow_lottery_winner`), so the recomputed hash still equals the stored
hash.  This holds for every digest function, i.e. it is not a hash
collision but a structural omission. -/
theorem C2_code_bug :
    ∀ sha256 : String → String,
      (chainC2 sha256).validate_chain sha256 = true ∧
      ((tamperBlock1 (chainC2 sha256) [txBtampered]).validate_chain sha256 = true) ∧
      ((tamperBlock1 (chainC2 sha256) [txBtampered]).chain.getLast?.map
        Block.transactions) = some [txBtampered] ∧
      ((chainC2 sha256).chain.getLast?.map Block.transactions) = some [txB] ∧
      txBtampered ≠ txB := by
  intro sha256
  have hchain : (chainC2 sha256).chain = [genesis_block sha256 0, blockB sha256] := rfl
  have hchainT : (tamperBlock1 (chainC2 sha256) [txBtampered]).chain =
      [genesis_block sha256 0, setTxs (blockB sha256) [txBtampered]] := rfl
  refine ⟨?_, ?_, ?_, ?_, ?_⟩
  · show validatePairs sha256 (chainC2 sha256).chain = true
    rw [hchain, validatePairs_cons sha256 _ _ _ rfl rfl]
    rfl
  · show validatePairs sha256 (tamperBlock1 (chainC2 sha256) [txBtampered]).chain = true
    rw [hchainT, validatePairs_cons sha256 _ _ _ rfl rfl]
    rfl
  · rw [hchainT]
    rfl
  · rw [hchain]
    rfl
  · intro h
    have hamt := congrArg Transaction.amount h
    norm_num [txB, txBtampered] at hamt

end Simplicity
